import Mathlib

/-!
Verification of the paginated-fetch-then-land pipeline in nba_api_ingest.py.

The embedding models JSON-compatible Python values with the inductive type
Json.  Python dicts are association lists in insertion order (keys unique for
values produced by json.loads); Python lists are Lean lists.  The network,
object-store and warehouse collaborators (requests, google.cloud.storage,
google.cloud.bigquery) are abstracted as inputs: the response obtained for
each requested page number, and the outcome of the submitted load job.
-/

/-- A JSON-compatible Python value. -/
inductive Json where
  | null : Json
  | bool (b : Bool) : Json
  | num (n : Int) : Json
  | str (s : String) : Json
  | arr (xs : List Json) : Json
  | obj (fields : List (String × Json)) : Json

mutual

/-- Structural equality test on Json values. -/
def Json.beq : Json → Json → Bool
  | Json.null, Json.null => true
  | Json.bool a, Json.bool b => a == b
  | Json.num a, Json.num b => a == b
  | Json.str a, Json.str b => a == b
  | Json.arr xs, Json.arr ys => Json.beqList xs ys
  | Json.obj fs, Json.obj gs => Json.beqFields fs gs
  | _, _ => false

/-- Structural equality test on lists of Json values. -/
def Json.beqList : List Json → List Json → Bool
  | [], [] => true
  | x :: xs, y :: ys => Json.beq x y && Json.beqList xs ys
  | _, _ => false

/-- Structural equality test on dict entry lists. -/
def Json.beqFields : List (String × Json) → List (String × Json) → Bool
  | [], [] => true
  | (k, v) :: fs, (k', v') :: gs => k == k' && Json.beq v v' && Json.beqFields fs gs
  | _, _ => false

end

mutual

theorem Json.beq_iff : ∀ a b : Json, Json.beq a b = true ↔ a = b
  | Json.null, b => by cases b <;> simp [Json.beq]
  | Json.bool a, b => by cases b <;> simp [Json.beq]
  | Json.num a, b => by cases b <;> simp [Json.beq]
  | Json.str a, b => by cases b <;> simp [Json.beq]
  | Json.arr xs, b => by
      cases b <;> simp [Json.beq, Json.beqList_iff xs]
  | Json.obj fs, b => by
      cases b <;> simp [Json.beq, Json.beqFields_iff fs]

theorem Json.beqList_iff : ∀ xs ys : List Json, Json.beqList xs ys = true ↔ xs = ys
  | [], ys => by cases ys <;> simp [Json.beqList]
  | x :: xs, ys => by
      cases ys with
      | nil => simp [Json.beqList]
      | cons y ys => simp [Json.beqList, Json.beq_iff x y, Json.beqList_iff xs ys]

theorem Json.beqFields_iff :
    ∀ fs gs : List (String × Json), Json.beqFields fs gs = true ↔ fs = gs
  | [], gs => by cases gs <;> simp [Json.beqFields]
  | (k, v) :: fs, gs => by
      cases gs with
      | nil => simp [Json.beqFields]
      | cons g gs =>
        obtain ⟨k', v'⟩ := g
        simp [Json.beqFields, Json.beq_iff v v', Json.beqFields_iff fs gs, and_assoc]

end

instance : DecidableEq Json := fun a b => decidable_of_iff _ (Json.beq_iff a b)

/-- Does the haystack start with the needle (first argument)? -/
def startsWithChars : List Char → List Char → Bool
  | [], _ => true
  | _ :: _, [] => false
  | a :: as, b :: bs => a = b && startsWithChars as bs

/-- Substring containment test on character lists, needle first. -/
def containsChars (needle : List Char) : List Char → Bool
  | [] => startsWithChars needle []
  | c :: rest => startsWithChars needle (c :: rest) || containsChars needle rest

/-- Python membership test for a string key against a value, as in the
    source's checks of the shape quoted-key in json_response.  On a dict it
    tests key membership, on a list element membership, on a string
    substring containment; on null, booleans and numbers Python raises an
    uncaught TypeError (argument not iterable), modelled as none. -/
def pyContains (j : Json) (k : String) : Option Bool :=
  match j with
  | Json.obj fs => some (List.lookup k fs).isSome
  | Json.arr xs => some (decide (Json.str k ∈ xs))
  | Json.str s => some (containsChars k.data s.data)
  | _ => none

/-- Python subscript j[k] with a string key.  Defined on dicts holding the
    key; everything else raises (TypeError on non-dicts, KeyError on a
    missing key), modelled as none. -/
def pyIndexStr (j : Json) (k : String) : Option Json :=
  match j with
  | Json.obj fs => List.lookup k fs
  | _ => none

/-- Python dict.get(k, d): the stored value when the key is present,
    otherwise the default. -/
def dictGetD (fs : List (String × Json)) (k : String) (d : Json) : Json :=
  match List.lookup k fs with
  | some v => v
  | none => d

/-- Python comparison a < b restricted to the shapes the pipeline meets:
    numbers compare numerically and strings lexicographically; comparisons
    between other shapes are left undefined (none), as Python raises
    TypeError on the ones the pagination code could reach (dicts, None). -/
def jsonLt (a b : Json) : Option Bool :=
  match a, b with
  | Json.num x, Json.num y => some (decide (x < y))
  | Json.str x, Json.str y => some (decide (x < y))
  | _, _ => none

/-- Outcome of one run of fetch_nba_data. -/
inductive FetchOut where
  | ok (records : List Json) : FetchOut
  | failure : FetchOut
  | crash : FetchOut
  | fuelOut : FetchOut
deriving DecidableEq

/-- Fallback accumulation after the data-list condition failed (source lines
    86-92): a list body has its elements appended; any other body is
    appended whole, but only on page 1 with an empty accumulator. -/
def accumFallback (page : Nat) (acc : List Json) (j : Json) : List Json :=
  match j with
  | Json.arr xs => acc ++ xs
  | _ => if page = 1 ∧ acc = [] then acc ++ [j] else acc

/-- Record accumulation for one parsed body (source lines 84-92).  Mirrors
    the Python conditional chain, including the short-circuit evaluation of
    the data-in-body test: none marks an uncaught exception. -/
def accumulateBody (page : Nat) (acc : List Json) (j : Json) : Option (List Json) :=
  match pyContains j "data" with
  | none => none
  | some true =>
    match pyIndexStr j "data" with
    | none => none
    | some (Json.arr xs) => some (acc ++ xs)
    | some _ => some (accumFallback page acc j)
  | some false => some (accumFallback page acc j)

/-- Continuation decision for one parsed body (source lines 95-106): when
    the body carries a pagination dict, read page (default 1) and pages
    (default the page just read) and continue exactly when page < pages;
    otherwise the response is single-page.  none marks an uncaught
    exception (TypeError during the membership test or the comparison). -/
def pagDecision (j : Json) : Option Bool :=
  match pyContains j "pagination" with
  | none => none
  | some true =>
    match pyIndexStr j "pagination" with
    | none => none
    | some (Json.obj pg) =>
      let cur := dictGetD pg "page" (Json.num 1)
      let tot := dictGetD pg "pages" cur
      jsonLt cur tot
    | some _ => some false
  | some false => some false

/-- The while-loop of fetch_nba_data (source lines 73-117).  resp gives the
    parsed body obtained for each requested page number, with none standing
    for a requests.RequestException or a JSON decode error, both of which
    make the function return None at once.  The returned list records the
    page numbers actually requested, in order.  fuel bounds the number of
    iterations modelled; the source's loop has no such bound. -/
def fetchLoop (resp : Nat → Option Json) : Nat → Nat → List Json → List Nat → List Nat × FetchOut
  | 0, _, _, reqs => (reqs, FetchOut.fuelOut)
  | fuel + 1, page, acc, reqs =>
    let reqs' := reqs ++ [page]
    match resp page with
    | none => (reqs', FetchOut.failure)
    | some j =>
      match accumulateBody page acc j with
      | none => (reqs', FetchOut.crash)
      | some acc' =>
        match pagDecision j with
        | none => (reqs', FetchOut.crash)
        | some true => fetchLoop resp fuel (page + 1) acc' reqs'
        | some false => (reqs', FetchOut.ok acc')

/-- fetch_nba_data (source lines 58-120): start at page 1 with an empty
    accumulator and loop until the continuation test fails or an error
    aborts the run. -/
def fetch_nba_data (resp : Nat → Option Json) (fuel : Nat) : List Nat × FetchOut :=
  fetchLoop resp fuel 1 [] []

/-- A mock page body of the shape the spec's pagination property uses:
    a data list plus pagination metadata (page = i, pages = n). -/
def mkPage (i n : Nat) (xs : List Json) : Json :=
  Json.obj [("data", Json.arr xs),
            ("pagination", Json.obj [("page", Json.num i), ("pages", Json.num n)])]

/-- The two dict objects involved in the parameter handling of
    fetch_nba_data (source lines 67-74): the dict the caller passed (when
    not None) and the function-local dict.  params.copy() makes the local
    dict an independent object with the same contents. -/
structure ParamState where
  callerDict : Option (List (String × Json))
  localDict : List (String × Json)
deriving DecidableEq

/-- Python dict assignment d[k] = v on an insertion-ordered dict: replace
    the value in place when the key is present, else append a new entry. -/
def dinsert (fs : List (String × Json)) (k : String) (v : Json) : List (String × Json) :=
  match fs with
  | [] => [(k, v)]
  | (k', v') :: rest => if k' = k then (k', v) :: rest else (k', v') :: dinsert rest k v

/-- Parameter initialization of fetch_nba_data (source lines 67-71):
    params = params.copy() when a dict was passed, an empty dict when the
    caller passed None. -/
def initParams (p : Option (List (String × Json))) : ParamState :=
  match p with
  | none => { callerDict := none, localDict := [] }
  | some d => { callerDict := some d, localDict := d }

/-- One execution of the assignment in the quotes page entry of params on
    line 74: it mutates only the function-local copy. -/
def setPageParam (s : ParamState) (page : Nat) : ParamState :=
  { s with localDict := dinsert s.localDict "page" (Json.num page) }

/-- Python str.lower() on the basic latin range, applied per character. -/
def lowerString (s : String) : String :=
  String.mk (s.data.map Char.toLower)

mutual

/-- standardize_keys_to_lowercase (source lines 187-197): rebuild every
    dict with lowercased keys (the dict comprehension assigns entries in
    insertion order, so colliding lowercased keys keep the last value),
    map over lists, return every other value unchanged. -/
def standardize_keys_to_lowercase : Json → Json
  | Json.obj fs => Json.obj (stdFields fs [])
  | Json.arr xs => Json.arr (stdList xs)
  | j => j

/-- The dict comprehension of line 193, written as a left fold of dict
    assignments starting from the empty dict. -/
def stdFields : List (String × Json) → List (String × Json) → List (String × Json)
  | [], acc => acc
  | (k, v) :: rest, acc =>
      stdFields rest (dinsert acc (lowerString k) (standardize_keys_to_lowercase v))

/-- The list comprehension of line 195. -/
def stdList : List Json → List Json
  | [] => []
  | x :: xs => standardize_keys_to_lowercase x :: stdList xs

end

/-- A dict entry list produced by the key normalizer: every key is fixed by
    lowercasing, every value is fixed by the normalizer, and keys are
    pairwise distinct. -/
def NormalizedFields (L : List (String × Json)) : Prop :=
  (∀ p ∈ L, lowerString p.1 = p.1 ∧ standardize_keys_to_lowercase p.2 = p.2) ∧
  L.Pairwise (fun a b => a.1 ≠ b.1)

/-- The value the claim's last-processed-wins rule assigns to a lowercased
    key: the value of the last entry, in insertion order, whose lowercased
    key equals it.  Stated from the specification for comparison with
    stdFields. -/
def lastLoweredValue : List (String × Json) → String → Option Json
  | [], _ => none
  | (k0, v0) :: rest, k =>
    match lastLoweredValue rest k with
    | some v => some v
    | none => if lowerString k0 = k then some v0 else none

/-- Terminal state of a BigQuery load job, as observed through
    load_job.result(): the job either completes, carrying its output row
    count, or raises, carrying an error message. -/
structure LoadJobDone where
  output_rows : Nat
deriving DecidableEq

/-- load_json_to_bigquery (source lines 161-185): submit the job, wait for
    it, return True on completion; any exception from submission or from
    the wait is caught and turned into False.  The row count of a completed
    job is only printed, never returned. -/
def load_json_to_bigquery (job : Except String LoadJobDone) : Bool :=
  match job with
  | Except.ok _ => true
  | Except.error _ => false

/-- The decimal digit character for a value below ten. -/
def digitChar10 (n : Nat) : Char := Char.ofNat (48 + n)

/-- Decimal digits of a natural number, most significant first; fuel equals
    one more than the number so the division chain always completes. -/
def natDigitsAux : Nat → Nat → List Char
  | 0, _ => []
  | fuel + 1, n =>
    if n < 10 then [digitChar10 n]
    else natDigitsAux fuel (n / 10) ++ [digitChar10 (n % 10)]

/-- Decimal representation of a natural number. -/
def natDigits (n : Nat) : List Char := natDigitsAux (n + 1) n

/-- Python str of an int: an optional minus sign then decimal digits. -/
def intChars (n : Int) : List Char :=
  if n < 0 then '-' :: natDigits n.natAbs else natDigits n.toNat

/-- Lowercase hexadecimal digit character for a value below sixteen. -/
def hexDigitChar (n : Nat) : Char :=
  Char.ofNat (if n < 10 then 48 + n else 87 + n)

/-- The four-character lowercase hex spelling used inside a JSON escape. -/
def hex4 (n : Nat) : List Char :=
  [hexDigitChar (n / 4096 % 16), hexDigitChar (n / 256 % 16),
   hexDigitChar (n / 16 % 16), hexDigitChar (n % 16)]

/-- How json.dumps with its defaults renders one character of a string:
    the two-character escapes for quote, backslash and the named control
    characters, a u-escape for the other control characters, printable
    ASCII verbatim, and u-escapes (with a surrogate pair beyond the basic
    plane) for everything non-ASCII, as ensure_ascii demands. -/
def escapeChar (c : Char) : List Char :=
  if c = '"' then ['\\', '"']
  else if c = '\\' then ['\\', '\\']
  else if c = '\n' then ['\\', 'n']
  else if c = '\r' then ['\\', 'r']
  else if c = '\t' then ['\\', 't']
  else if c.toNat = 8 then ['\\', 'b']
  else if c.toNat = 12 then ['\\', 'f']
  else if c.toNat < 32 then '\\' :: 'u' :: hex4 c.toNat
  else if c.toNat < 127 then [c]
  else if c.toNat < 65536 then '\\' :: 'u' :: hex4 c.toNat
  else
    ('\\' :: 'u' :: hex4 (55296 + (c.toNat - 65536) / 1024)) ++
    ('\\' :: 'u' :: hex4 (56320 + (c.toNat - 65536) % 1024))

/-- A JSON string literal: quote, escaped characters, quote. -/
def strChars (s : String) : List Char :=
  '"' :: (List.flatten (s.data.map escapeChar) ++ ['"'])

mutual

/-- json.dumps with its default options, as the characters it emits:
    null, true and false as keywords, ints in decimal, strings quoted and
    escaped, lists bracketed with comma-space separators, dicts braced
    with comma-space separators and colon-space between key and value. -/
def dumpChars : Json → List Char
  | Json.null => ['n', 'u', 'l', 'l']
  | Json.bool true => ['t', 'r', 'u', 'e']
  | Json.bool false => ['f', 'a', 'l', 's', 'e']
  | Json.num n => intChars n
  | Json.str s => strChars s
  | Json.arr xs => '[' :: (dumpListChars xs ++ [']'])
  | Json.obj fs => Char.ofNat 123 :: (dumpFieldsChars fs ++ [Char.ofNat 125])

/-- Comma-space separated renderings of list elements. -/
def dumpListChars : List Json → List Char
  | [] => []
  | [x] => dumpChars x
  | x :: y :: xs => dumpChars x ++ (',' :: ' ' :: dumpListChars (y :: xs))

/-- Comma-space separated key: value renderings of dict entries. -/
def dumpFieldsChars : List (String × Json) → List Char
  | [] => []
  | [(k, v)] => strChars k ++ (':' :: ' ' :: dumpChars v)
  | (k, v) :: f :: fs =>
      (strChars k ++ (':' :: ' ' :: dumpChars v)) ++
      (',' :: ' ' :: dumpFieldsChars (f :: fs))

end

/-- Python newline-join of already-rendered lines, as in the join call on
    source line 131: lines concatenated with a single newline between
    consecutive lines and nothing appended after the last. -/
def joinLines : List (List Char) → List Char
  | [] => []
  | [l] => l
  | l :: l' :: ls => l ++ ('\n' :: joinLines (l' :: ls))

/-- Splitting a character stream at newline characters, recovering the
    lines of an NDJSON payload. -/
def splitLines : List Char → List (List Char)
  | [] => [[]]
  | c :: cs =>
    if c = '\n' then [] :: splitLines cs
    else
      match splitLines cs with
      | [] => [[c]]
      | l :: ls => (c :: l) :: ls

/-- The serialization step of upload_to_gcs (source lines 130-133): a list
    becomes one dumped line per element joined by newlines, anything else
    becomes its sole dumped form.  The resulting characters are exactly the
    string handed to the blob upload on line 136; the storage client is a
    collaborator outside the model. -/
def upload_to_gcs (data : Json) : List Char :=
  match data with
  | Json.arr xs => joinLines (xs.map dumpChars)
  | j => dumpChars j

theorem char_toNat_ofNat_of_lt (n : Nat) (h : n < 55296) : (Char.ofNat n).toNat = n := by
  have hv : n.isValidChar := Or.inl h
  rw [Char.ofNat, dif_pos hv]
  rfl

theorem toLower_idem (c : Char) : c.toLower.toLower = c.toLower := by
  unfold Char.toLower
  by_cases h : c.toNat ≥ 65 ∧ c.toNat ≤ 90
  · rw [if_pos h]
    have hlt : c.toNat + 32 < 55296 := by omega
    rw [char_toNat_ofNat_of_lt _ hlt, if_neg (by omega)]
  · rw [if_neg h, if_neg h]

theorem lowerString_idem (s : String) : lowerString (lowerString s) = lowerString s := by
  obtain ⟨data⟩ := s
  simp only [lowerString, List.map_map]
  exact congrArg String.mk (List.map_congr_left fun c _ => toLower_idem c)

theorem dinsert_lookup (acc : List (String × Json)) (k : String) (v : Json) (k' : String) :
    List.lookup k' (dinsert acc k v) = if k = k' then some v else List.lookup k' acc := by
  induction acc with
  | nil =>
    by_cases h : k = k'
    · subst h
      simp [dinsert]
    · simp [dinsert, List.lookup, beq_false_of_ne (Ne.symm h), h]
  | cons a rest ih =>
    obtain ⟨a1, a2⟩ := a
    by_cases ha : a1 = k
    · subst ha
      by_cases h : a1 = k'
      · subst h
        simp [dinsert]
      · simp [dinsert, List.lookup, beq_false_of_ne (Ne.symm h), h]
    · by_cases h : k' = a1
      · subst h
        have hne : ¬ k = k' := fun he => ha he.symm
        simp [dinsert, ha, List.lookup, hne]
      · simp [dinsert, ha, List.lookup, beq_false_of_ne h, ih]

theorem dinsert_mem (acc : List (String × Json)) (k : String) (v : Json)
    (p : String × Json) (hp : p ∈ dinsert acc k v) : p = (k, v) ∨ p ∈ acc := by
  induction acc with
  | nil =>
    simp [dinsert] at hp
    exact Or.inl hp
  | cons a rest ih =>
    obtain ⟨a1, a2⟩ := a
    by_cases ha : a1 = k
    · subst ha
      simp [dinsert] at hp
      rcases hp with h | h
      · exact Or.inl (by simp [h])
      · exact Or.inr (by simp [h])
    · simp [dinsert, ha] at hp
      rcases hp with h | h
      · exact Or.inr (by simp [h])
      · rcases ih h with h' | h'
        · exact Or.inl h'
        · exact Or.inr (by simp [h'])

theorem dinsert_pairwise (acc : List (String × Json)) (k : String) (v : Json)
    (h : acc.Pairwise (fun a b => a.1 ≠ b.1)) :
    (dinsert acc k v).Pairwise (fun a b => a.1 ≠ b.1) := by
  induction acc with
  | nil => simp [dinsert]
  | cons a rest ih =>
    obtain ⟨a1, a2⟩ := a
    rw [List.pairwise_cons] at h
    obtain ⟨hhead, htail⟩ := h
    by_cases ha : a1 = k
    · subst ha
      simp only [dinsert, if_pos rfl]
      exact List.pairwise_cons.mpr ⟨hhead, htail⟩
    · simp only [dinsert, if_neg ha]
      refine List.pairwise_cons.mpr ⟨?_, ih htail⟩
      intro b hb
      rcases dinsert_mem rest k v b hb with h' | h'
      · rw [h']
        exact ha
      · exact hhead b h'

theorem dinsert_not_mem (acc : List (String × Json)) (k : String) (v : Json)
    (h : k ∉ acc.map Prod.fst) : dinsert acc k v = acc ++ [(k, v)] := by
  induction acc with
  | nil => simp [dinsert]
  | cons a rest ih =>
    obtain ⟨a1, a2⟩ := a
    simp only [List.map_cons, List.mem_cons] at h
    push_neg at h
    have hne : ¬ a1 = k := fun he => h.1 he.symm
    simp [dinsert, hne, ih h.2]

theorem stdFields_normalized : ∀ (fs acc : List (String × Json)),
    (∀ p ∈ fs, standardize_keys_to_lowercase (standardize_keys_to_lowercase p.2) =
      standardize_keys_to_lowercase p.2) →
    NormalizedFields acc → NormalizedFields (stdFields fs acc)
  | [], acc, _, hacc => hacc
  | (k, v) :: rest, acc, hvals, hacc => by
    refine stdFields_normalized rest _ (fun p hp => hvals p (List.mem_cons_of_mem _ hp)) ?_
    constructor
    · intro p hp
      rcases dinsert_mem _ _ _ p hp with h | h
      · rw [h]
        exact ⟨lowerString_idem k, hvals (k, v) (List.mem_cons_self _ _)⟩
      · exact hacc.1 p h
    · exact dinsert_pairwise _ _ _ hacc.2

theorem stdFields_of_normalized : ∀ (L acc : List (String × Json)),
    (∀ p ∈ L, lowerString p.1 = p.1 ∧ standardize_keys_to_lowercase p.2 = p.2) →
    L.Pairwise (fun a b => a.1 ≠ b.1) →
    (∀ p ∈ L, p.1 ∉ acc.map Prod.fst) →
    stdFields L acc = acc ++ L
  | [], acc, _, _, _ => by simp [stdFields]
  | (k, v) :: rest, acc, hfix, hpw, hdisj => by
    obtain ⟨hk, hv⟩ := hfix (k, v) (List.mem_cons_self _ _)
    rw [List.pairwise_cons] at hpw
    have hnot : k ∉ acc.map Prod.fst := hdisj (k, v) (List.mem_cons_self _ _)
    have step : stdFields ((k, v) :: rest) acc = stdFields rest (acc ++ [(k, v)]) := by
      rw [stdFields, hk, hv, dinsert_not_mem acc k v hnot]
    rw [step, stdFields_of_normalized rest (acc ++ [(k, v)])
      (fun p hp => hfix p (List.mem_cons_of_mem _ hp)) hpw.2 ?_]
    · simp
    · intro p hp
      simp only [List.map_append, List.mem_append]
      push_neg
      refine ⟨hdisj p (List.mem_cons_of_mem _ hp), ?_⟩
      simp only [List.map_cons, List.map_nil, List.mem_cons, List.not_mem_nil]
      intro hcon
      rcases hcon with hcon | hcon
      · exact hpw.1 p hp hcon.symm
      · exact hcon

theorem stdList_of_fixed : ∀ xs : List Json,
    (∀ x ∈ xs, standardize_keys_to_lowercase x = x) → stdList xs = xs
  | [], _ => rfl
  | x :: xs, h => by
    rw [stdList, h x (List.mem_cons_self _ _),
      stdList_of_fixed xs (fun y hy => h y (List.mem_cons_of_mem _ hy))]

mutual

theorem std_idem : ∀ j : Json,
    standardize_keys_to_lowercase (standardize_keys_to_lowercase j) =
      standardize_keys_to_lowercase j
  | Json.null => rfl
  | Json.bool _ => rfl
  | Json.num _ => rfl
  | Json.str _ => rfl
  | Json.arr xs => by
    have h := stdListVals_idem xs
    rw [standardize_keys_to_lowercase, standardize_keys_to_lowercase]
    rw [stdList_of_fixed (stdList xs) ?_]
    intro y hy
    induction xs with
    | nil => simp [stdList] at hy
    | cons x xs ih =>
      rw [stdList] at hy
      rcases List.mem_cons.mp hy with h' | h'
      · rw [h']
        exact h x (List.mem_cons_self _ _)
      · exact ih (fun z hz => h z (List.mem_cons_of_mem _ hz)) h'
  | Json.obj fs => by
    have hvals := stdFieldsVals_idem fs
    rw [standardize_keys_to_lowercase, standardize_keys_to_lowercase]
    have hnorm : NormalizedFields (stdFields fs []) :=
      stdFields_normalized fs [] hvals ⟨by simp, List.Pairwise.nil⟩
    rw [stdFields_of_normalized (stdFields fs []) [] hnorm.1 hnorm.2 (by simp)]
    simp

theorem stdListVals_idem : ∀ xs : List Json, ∀ x ∈ xs,
    standardize_keys_to_lowercase (standardize_keys_to_lowercase x) =
      standardize_keys_to_lowercase x
  | [] => by simp
  | x :: xs => by
    intro y hy
    rcases List.mem_cons.mp hy with h | h
    · rw [h]
      exact std_idem x
    · exact stdListVals_idem xs y h

theorem stdFieldsVals_idem : ∀ fs : List (String × Json), ∀ p ∈ fs,
    standardize_keys_to_lowercase (standardize_keys_to_lowercase p.2) =
      standardize_keys_to_lowercase p.2
  | [] => by simp
  | (k, v) :: fs => by
    intro p hp
    rcases List.mem_cons.mp hp with h | h
    · rw [h]
      exact std_idem v
    · exact stdFieldsVals_idem fs p h

end

theorem stdFields_lookup : ∀ (fs acc : List (String × Json)) (k : String),
    List.lookup k (stdFields fs acc) =
      match lastLoweredValue fs k with
      | some v => some (standardize_keys_to_lowercase v)
      | none => List.lookup k acc
  | [], acc, k => rfl
  | (k0, v0) :: rest, acc, k => by
    rw [stdFields, stdFields_lookup rest _ k, lastLoweredValue]
    cases lastLoweredValue rest k with
    | some v => rfl
    | none =>
      rw [dinsert_lookup]
      by_cases h : lowerString k0 = k
      · simp [h]
      · simp [h]

theorem accumulateBody_mkPage (p : Nat) (acc : List Json) (i n : Nat) (xs : List Json) :
    accumulateBody p acc (mkPage i n xs) = some (acc ++ xs) := rfl

theorem pagDecision_mkPage (i n : Nat) (xs : List Json) :
    pagDecision (mkPage i n xs) = some (decide ((i : Int) < (n : Int))) := rfl

theorem fetchLoop_mkPages (resp : Nat → Option Json) (N : Nat) (ds : Nat → List Json)
    (hresp : ∀ i, 1 ≤ i → i ≤ N → resp i = some (mkPage i N (ds i))) :
    ∀ (fuel start : Nat) (acc : List Json) (reqs : List Nat),
      1 ≤ start → start ≤ N → N - start < fuel →
      fetchLoop resp fuel start acc reqs =
        (reqs ++ List.range' start (N - start + 1),
         FetchOut.ok (acc ++ (List.range' start (N - start + 1)).flatMap ds)) := by
  intro fuel
  induction fuel with
  | zero =>
    intro start acc reqs _ _ h3
    exact absurd h3 (Nat.not_lt_zero _)
  | succ fuel ih =>
    intro start acc reqs h1 h2 h3
    have hacc : accumulateBody start acc (mkPage start N (ds start)) = some (acc ++ ds start) :=
      accumulateBody_mkPage start acc start N (ds start)
    by_cases hlt : start < N
    · have hpag : pagDecision (mkPage start N (ds start)) = some true := by
        rw [pagDecision_mkPage]
        simp only [Option.some.injEq, decide_eq_true_eq]
        exact_mod_cast hlt
      simp only [fetchLoop, hresp start h1 h2, hacc, hpag]
      rw [ih (start + 1) (acc ++ ds start) (reqs ++ [start]) (by omega) (by omega) (by omega)]
      have hr : List.range' start (N - start + 1) =
          start :: List.range' (start + 1) (N - (start + 1) + 1) := by
        have he : N - start + 1 = (N - (start + 1) + 1) + 1 := by omega
        rw [he, List.range'_succ]
      rw [hr]
      simp [List.append_assoc]
    · have hpag : pagDecision (mkPage start N (ds start)) = some false := by
        rw [pagDecision_mkPage]
        simp only [Option.some.injEq, decide_eq_false_iff_not]
        exact fun hc => hlt (by exact_mod_cast hc)
      simp only [fetchLoop, hresp start h1 h2, hacc, hpag]
      have h0 : N - start + 1 = 1 := by omega
      rw [h0]
      simp

theorem hexDigitChar_toNat (n : Nat) (h : n < 16) :
    (hexDigitChar n).toNat = if n < 10 then 48 + n else 87 + n := by
  unfold hexDigitChar
  split <;> rw [char_toNat_ofNat_of_lt] <;> omega

theorem hexDigitChar_ne_nl (n : Nat) (h : n < 16) : hexDigitChar n ≠ '\n' := by
  intro he
  have ht := hexDigitChar_toNat n h
  rw [he] at ht
  have : Char.toNat '\n' = 10 := rfl
  rw [this] at ht
  split at ht <;> omega

theorem digitChar10_toNat (n : Nat) (h : n < 10) : (digitChar10 n).toNat = 48 + n := by
  unfold digitChar10
  rw [char_toNat_ofNat_of_lt]
  omega

theorem digitChar10_ne_nl (n : Nat) (h : n < 10) : digitChar10 n ≠ '\n' := by
  intro he
  have ht := digitChar10_toNat n h
  rw [he] at ht
  have : Char.toNat '\n' = 10 := rfl
  rw [this] at ht
  omega

theorem natDigitsAux_no_nl : ∀ (fuel n : Nat), '\n' ∉ natDigitsAux fuel n
  | 0, _ => by simp [natDigitsAux]
  | fuel + 1, n => by
    rw [natDigitsAux]
    split
    · simp only [List.mem_singleton]
      exact fun he => digitChar10_ne_nl n (by omega) he.symm
    · rw [List.mem_append]
      push_neg
      refine ⟨natDigitsAux_no_nl fuel (n / 10), ?_⟩
      simp only [List.mem_singleton]
      exact fun he => digitChar10_ne_nl (n % 10) (Nat.mod_lt _ (by omega)) he.symm

theorem natDigits_no_nl (n : Nat) : '\n' ∉ natDigits n := natDigitsAux_no_nl (n + 1) n

theorem natDigits_ne_nil (n : Nat) : natDigits n ≠ [] := by
  rw [natDigits, natDigitsAux]
  split
  · exact List.cons_ne_nil _ _
  · exact fun h => by simp at h

theorem intChars_no_nl (n : Int) : '\n' ∉ intChars n := by
  rw [intChars]
  split
  · rw [List.mem_cons]
    push_neg
    exact ⟨by decide, natDigits_no_nl _⟩
  · exact natDigits_no_nl _

theorem intChars_ne_nil (n : Int) : intChars n ≠ [] := by
  rw [intChars]
  split
  · exact List.cons_ne_nil _ _
  · exact natDigits_ne_nil _

theorem hexEsc_no_nl (m : Nat) : '\n' ∉ ('\\' :: 'u' :: hex4 m) := by
  simp only [hex4, List.mem_cons, List.not_mem_nil]
  push_neg
  refine ⟨by decide, by decide, ?_, ?_, ?_, ?_, fun h => h⟩ <;>
    exact fun he => hexDigitChar_ne_nl _ (Nat.mod_lt _ (by omega)) he.symm

theorem escapeChar_no_nl (c : Char) : '\n' ∉ escapeChar c := by
  rw [escapeChar]
  by_cases h1 : c = '"'
  · rw [if_pos h1]
    decide
  rw [if_neg h1]
  by_cases h2 : c = '\\'
  · rw [if_pos h2]
    decide
  rw [if_neg h2]
  by_cases h3 : c = '\n'
  · rw [if_pos h3]
    decide
  rw [if_neg h3]
  by_cases h4 : c = '\r'
  · rw [if_pos h4]
    decide
  rw [if_neg h4]
  by_cases h5 : c = '\t'
  · rw [if_pos h5]
    decide
  rw [if_neg h5]
  by_cases h6 : c.toNat = 8
  · rw [if_pos h6]
    decide
  rw [if_neg h6]
  by_cases h7 : c.toNat = 12
  · rw [if_pos h7]
    decide
  rw [if_neg h7]
  by_cases h8 : c.toNat < 32
  · rw [if_pos h8]
    exact hexEsc_no_nl _
  rw [if_neg h8]
  by_cases h9 : c.toNat < 127
  · rw [if_pos h9]
    simp only [List.mem_singleton]
    exact fun he => h3 he.symm
  rw [if_neg h9]
  by_cases h10 : c.toNat < 65536
  · rw [if_pos h10]
    exact hexEsc_no_nl _
  · rw [if_neg h10]
    rw [List.mem_append]
    push_neg
    exact ⟨hexEsc_no_nl _, hexEsc_no_nl _⟩

theorem strChars_no_nl (s : String) : '\n' ∉ strChars s := by
  rw [strChars, List.mem_cons, List.mem_append]
  push_neg
  refine ⟨by decide, ?_, by decide⟩
  rw [List.mem_flatten]
  push_neg
  intro l hl
  rw [List.mem_map] at hl
  obtain ⟨c, _, hc⟩ := hl
  rw [← hc]
  exact escapeChar_no_nl c

mutual

theorem dumpChars_no_nl : ∀ j : Json, '\n' ∉ dumpChars j
  | Json.null => by decide
  | Json.bool true => by decide
  | Json.bool false => by decide
  | Json.num n => intChars_no_nl n
  | Json.str s => strChars_no_nl s
  | Json.arr xs => by
    rw [dumpChars, List.mem_cons, List.mem_append]
    push_neg
    exact ⟨by decide, dumpListChars_no_nl xs, by decide⟩
  | Json.obj fs => by
    rw [dumpChars, List.mem_cons, List.mem_append]
    push_neg
    exact ⟨by decide, dumpFieldsChars_no_nl fs, by decide⟩

theorem dumpListChars_no_nl : ∀ xs : List Json, '\n' ∉ dumpListChars xs
  | [] => by simp [dumpListChars]
  | [x] => dumpChars_no_nl x
  | x :: y :: xs => by
    rw [dumpListChars, List.mem_append, List.mem_cons, List.mem_cons]
    push_neg
    exact ⟨dumpChars_no_nl x, by decide, by decide, dumpListChars_no_nl (y :: xs)⟩

theorem dumpFieldsChars_no_nl : ∀ fs : List (String × Json), '\n' ∉ dumpFieldsChars fs
  | [] => by simp [dumpFieldsChars]
  | [(k, v)] => by
    rw [dumpFieldsChars, List.mem_append, List.mem_cons, List.mem_cons]
    push_neg
    exact ⟨strChars_no_nl k, by decide, by decide, dumpChars_no_nl v⟩
  | (k, v) :: f :: fs => by
    rw [dumpFieldsChars, List.mem_append, List.mem_append, List.mem_cons, List.mem_cons,
      List.mem_cons, List.mem_cons]
    push_neg
    exact ⟨⟨strChars_no_nl k, by decide, by decide, dumpChars_no_nl v⟩,
      by decide, by decide, dumpFieldsChars_no_nl (f :: fs)⟩

end

theorem dumpChars_ne_nil (j : Json) : dumpChars j ≠ [] := by
  cases j with
  | null => exact List.cons_ne_nil _ _
  | bool b => cases b <;> exact List.cons_ne_nil _ _
  | num n => exact intChars_ne_nil n
  | str s => exact List.cons_ne_nil _ _
  | arr xs => exact List.cons_ne_nil _ _
  | obj fs => exact List.cons_ne_nil _ _

theorem splitLines_of_no_nl (l : List Char) (h : '\n' ∉ l) : splitLines l = [l] := by
  induction l with
  | nil => rfl
  | cons c cs ih =>
    rw [List.mem_cons] at h
    push_neg at h
    rw [splitLines, if_neg (fun he => h.1 he.symm), ih h.2]

theorem splitLines_append_nl (l rest : List Char) (h : '\n' ∉ l) :
    splitLines (l ++ '\n' :: rest) = l :: splitLines rest := by
  induction l with
  | nil =>
    simp only [List.nil_append]
    rw [splitLines, if_pos rfl]
  | cons c cs ih =>
    rw [List.mem_cons] at h
    push_neg at h
    rw [List.cons_append, splitLines, if_neg (fun he => h.1 he.symm), ih h.2]

theorem splitLines_joinLines : ∀ ls : List (List Char),
    (∀ l ∈ ls, '\n' ∉ l) → ls ≠ [] → splitLines (joinLines ls) = ls
  | [], _, hne => absurd rfl hne
  | [l], h, _ => by
    rw [joinLines, splitLines_of_no_nl l (h l (List.mem_singleton.mpr rfl))]
  | l :: l' :: ls, h, _ => by
    rw [joinLines, splitLines_append_nl l _ (h l (List.mem_cons_self _ _)),
      splitLines_joinLines (l' :: ls) (fun x hx => h x (List.mem_cons_of_mem _ hx))
        (List.cons_ne_nil _ _)]

theorem joinLines_ne_nil : ∀ (l : List Char) (ls : List (List Char)),
    l ≠ [] → joinLines (l :: ls) ≠ []
  | l, [], hne => by
    rw [joinLines]
    exact hne
  | l, l' :: ls, _ => by
    rw [joinLines]
    intro hcon
    rcases List.append_eq_nil.mp hcon with ⟨_, h2⟩
    exact List.cons_ne_nil _ _ h2

theorem joinLines_getLast_ne_nl : ∀ ls : List (List Char),
    (∀ l ∈ ls, '\n' ∉ l) → (∀ l ∈ ls, l ≠ []) → (joinLines ls).getLast? ≠ some '\n'
  | [], _, _ => by
    rw [joinLines]
    simp
  | [l], h, _ => by
    rw [joinLines]
    intro hcon
    exact h l (List.mem_singleton.mpr rfl) (List.mem_of_getLast?_eq_some hcon)
  | l :: l' :: ls, h, hne => by
    rw [joinLines, List.getLast?_append]
    have htail := joinLines_getLast_ne_nl (l' :: ls)
      (fun x hx => h x (List.mem_cons_of_mem _ hx))
      (fun x hx => hne x (List.mem_cons_of_mem _ hx))
    have hjn : joinLines (l' :: ls) ≠ [] :=
      joinLines_ne_nil l' ls (hne l' (List.mem_cons_of_mem _ (List.mem_cons_self _ _)))
    obtain ⟨x, hx⟩ := Option.isSome_iff_exists.mp (List.getLast?_isSome.mpr hjn)
    rw [List.getLast?_cons, hx]
    simp only [Option.getD_some, Option.or_some]
    intro hcon
    rw [Option.some.injEq] at hcon
    exact htail (by rw [hx, hcon])

theorem fetchLoop_resp_none (resp : Nat → Option Json) (p fuel : Nat) (acc : List Json)
    (reqs : List Nat) (h : resp p = none) :
    fetchLoop resp (fuel + 1) p acc reqs = (reqs ++ [p], FetchOut.failure) := by
  simp [fetchLoop, h]

theorem fetchLoop_last_page (resp : Nat → Option Json) (fuel page : Nat)
    (acc acc' : List Json) (reqs : List Nat) (j : Json) (h1 : resp page = some j)
    (h2 : accumulateBody page acc j = some acc') (h3 : pagDecision j = some false) :
    fetchLoop resp (fuel + 1) page acc reqs = (reqs ++ [page], FetchOut.ok acc') := by
  simp [fetchLoop, h1, h2, h3]

theorem fetchLoop_next_page (resp : Nat → Option Json) (fuel page : Nat)
    (acc acc' : List Json) (reqs : List Nat) (j : Json) (h1 : resp page = some j)
    (h2 : accumulateBody page acc j = some acc') (h3 : pagDecision j = some true) :
    fetchLoop resp (fuel + 1) page acc reqs = fetchLoop resp fuel (page + 1) acc' (reqs ++ [page]) := by
  simp [fetchLoop, h1, h2, h3]

theorem foldl_setPageParam_caller : ∀ (pages : List Nat) (s : ParamState),
    (pages.foldl setPageParam s).callerDict = s.callerDict
  | [], _ => rfl
  | p :: ps, s => by
    rw [List.foldl_cons]
    exact foldl_setPageParam_caller ps (setPageParam s p)

/-- Claim C1: for a sequence of successfully parsed mock pages in which page
    i reports pagination metadata page = i, pages = N and carries a data
    list, fetch_nba_data issues exactly N requests, with the page parameter
    running 1 up to N, and returns the concatenation of all pages' data
    records in page order then intra-page order. -/
theorem fetch_pagination_exact (N : Nat) (hN : 1 ≤ N) (ds : Nat → List Json)
    (resp : Nat → Option Json)
    (hresp : ∀ i, 1 ≤ i → i ≤ N → resp i = some (mkPage i N (ds i)))
    (fuel : Nat) (hfuel : N ≤ fuel) :
    fetch_nba_data resp fuel =
      (List.range' 1 N, FetchOut.ok ((List.range' 1 N).flatMap ds)) ∧
    (List.range' 1 N).length = N := by
  constructor
  · rw [fetch_nba_data,
      fetchLoop_mkPages resp N ds hresp fuel 1 [] [] (le_refl 1) hN (by omega)]
    have h1 : N - 1 + 1 = N := by omega
    rw [h1]
    simp
  · simp

/-- Witness for claim C1 at a concrete two-page sequence. -/
theorem fetch_pagination_exact_witness :
    fetch_nba_data
      (fun p => if p = 1 then some (mkPage 1 2 [Json.num 10])
        else if p = 2 then some (mkPage 2 2 [Json.num 20, Json.num 30]) else none) 2 =
      ([1, 2], FetchOut.ok [Json.num 10, Json.num 20, Json.num 30]) := by
  have h := fetch_pagination_exact 2 (by decide)
    (fun i => if i = 1 then [Json.num 10] else [Json.num 20, Json.num 30])
    (fun p => if p = 1 then some (mkPage 1 2 [Json.num 10])
      else if p = 2 then some (mkPage 2 2 [Json.num 20, Json.num 30]) else none)
    (by intro i h1 h2; interval_cases i <;> rfl) 2 (le_refl 2)
  rw [h.1]
  decide

/-- Claim C2: a transport or JSON parse failure on any requested page makes
    fetch_nba_data return Failure at once, discarding all records already
    accumulated and issuing no retry; in particular a failure on page 2
    after a successful page 1 yields Failure with exactly the two requests
    1 and 2 issued, not the partial page-1 data. -/
theorem fetch_failure_short_circuit :
    (∀ (resp : Nat → Option Json) (p fuel : Nat) (acc : List Json) (reqs : List Nat),
      resp p = none →
      fetchLoop resp (fuel + 1) p acc reqs = (reqs ++ [p], FetchOut.failure)) ∧
    (∀ (resp : Nat → Option Json) (x : Json) (fuel : Nat),
      resp 1 = some (mkPage 1 2 [x]) → resp 2 = none → 2 ≤ fuel →
      fetch_nba_data resp fuel = ([1, 2], FetchOut.failure)) := by
  constructor
  · exact fetchLoop_resp_none
  · intro resp x fuel h1 h2 hfuel
    obtain ⟨f, rfl⟩ : ∃ f, fuel = f + 2 := ⟨fuel - 2, by omega⟩
    have hpag : pagDecision (mkPage 1 2 [x]) = some true := by
      rw [pagDecision_mkPage]
      rfl
    rw [fetch_nba_data,
      fetchLoop_next_page resp (f + 1) 1 [] [x] [] (mkPage 1 2 [x]) h1
        (accumulateBody_mkPage 1 [] 1 2 [x]) hpag,
      fetchLoop_resp_none resp 2 f [x] ([] ++ [1]) h2]
    rfl

/-- Witness for claim C2: page 1 succeeds with one record, page 2 fails. -/
theorem fetch_failure_short_circuit_witness :
    fetch_nba_data (fun p => if p = 1 then some (mkPage 1 2 [Json.num 1]) else none) 5 =
      ([1, 2], FetchOut.failure) :=
  fetch_failure_short_circuit.2
    (fun p => if p = 1 then some (mkPage 1 2 [Json.num 1]) else none)
    (Json.num 1) 5 rfl rfl (by decide)

/-- Claim C6: when every requested page succeeds and parses, fetch_nba_data
    returns the accumulated record list through the ok outcome, also when
    that list is empty, and the empty ok outcome is distinct from the
    Failure outcome produced by transport and parse errors. -/
theorem fetch_empty_ok_distinct :
    (∀ (resp : Nat → Option Json) (fuel page : Nat) (acc acc' : List Json)
        (reqs : List Nat) (j : Json),
      resp page = some j → accumulateBody page acc j = some acc' →
      pagDecision j = some false →
      fetchLoop resp (fuel + 1) page acc reqs = (reqs ++ [page], FetchOut.ok acc')) ∧
    (∀ (resp : Nat → Option Json) (xs : List Json) (fuel : Nat),
      resp 1 = some (Json.obj [("data", Json.arr xs)]) →
      fetch_nba_data resp (fuel + 1) = ([1], FetchOut.ok xs)) ∧
    (∀ records : List Json, FetchOut.ok records ≠ FetchOut.failure) := by
  refine ⟨fetchLoop_last_page, ?_, fun _ h => FetchOut.noConfusion h⟩
  intro resp xs fuel h
  have h2 : accumulateBody 1 [] (Json.obj [("data", Json.arr xs)]) = some xs := by
    show some ([] ++ xs) = some xs
    rw [List.nil_append]
  have h3 : pagDecision (Json.obj [("data", Json.arr xs)]) = some false := rfl
  exact fetchLoop_last_page resp fuel 1 [] xs [] _ h h2 h3

/-- Witness for claim C6: a single page whose data list is empty. -/
theorem fetch_empty_ok_distinct_witness :
    fetch_nba_data (fun _ => some (Json.obj [("data", Json.arr [])])) 1 =
      ([1], FetchOut.ok []) ∧
    FetchOut.ok ([] : List Json) ≠ FetchOut.failure :=
  ⟨fetch_empty_ok_distinct.2.1 (fun _ => some (Json.obj [("data", Json.arr [])])) [] 0 rfl,
   fetch_empty_ok_distinct.2.2 []⟩

/-- Claim C10: a pagination dict lacking the pages subfield makes the total
    default to the reported current page, so the continuation test fails
    and the page is treated as final (stated for a numeric or absent page
    subfield, the shapes the comparison is defined on); a pagination dict
    whose page subfield is absent defaults it to 1, so pages greater than 1
    alone still continues the loop.  The last two conjuncts tie the
    decision to the loop: a false decision stops with the accumulated
    records, a true decision recurses on the next page number. -/
theorem pagination_missing_subfields :
    (∀ (fields pg : List (String × Json)) (c : Int),
      List.lookup "pagination" fields = some (Json.obj pg) →
      List.lookup "pages" pg = none →
      List.lookup "page" pg = some (Json.num c) →
      pagDecision (Json.obj fields) = some false) ∧
    (∀ (fields pg : List (String × Json)),
      List.lookup "pagination" fields = some (Json.obj pg) →
      List.lookup "pages" pg = none →
      List.lookup "page" pg = none →
      pagDecision (Json.obj fields) = some false) ∧
    (∀ (fields pg : List (String × Json)) (m : Int),
      List.lookup "pagination" fields = some (Json.obj pg) →
      List.lookup "page" pg = none →
      List.lookup "pages" pg = some (Json.num m) →
      1 < m →
      pagDecision (Json.obj fields) = some true) ∧
    (∀ (resp : Nat → Option Json) (fuel page : Nat) (acc acc' : List Json)
        (reqs : List Nat) (j : Json),
      resp page = some j → accumulateBody page acc j = some acc' →
      pagDecision j = some false →
      fetchLoop resp (fuel + 1) page acc reqs = (reqs ++ [page], FetchOut.ok acc')) ∧
    (∀ (resp : Nat → Option Json) (fuel page : Nat) (acc acc' : List Json)
        (reqs : List Nat) (j : Json),
      resp page = some j → accumulateBody page acc j = some acc' →
      pagDecision j = some true →
      fetchLoop resp (fuel + 1) page acc reqs =
        fetchLoop resp fuel (page + 1) acc' (reqs ++ [page])) := by
  refine ⟨?_, ?_, ?_, fetchLoop_last_page, fetchLoop_next_page⟩
  · intro fields pg c hpag hpages hpage
    simp only [pagDecision, pyContains, pyIndexStr, hpag, Option.isSome_some, dictGetD,
      hpage, hpages, jsonLt]
    simp
  · intro fields pg hpag hpages hpage
    simp only [pagDecision, pyContains, pyIndexStr, hpag, Option.isSome_some, dictGetD,
      hpage, hpages, jsonLt]
    simp
  · intro fields pg m hpag hpage hpages hm
    simp only [pagDecision, pyContains, pyIndexStr, hpag, Option.isSome_some, dictGetD,
      hpage, hpages, jsonLt]
    simp [hm]

/-- Witness for claim C10 at concrete pagination dicts. -/
theorem pagination_missing_subfields_witness :
    pagDecision (Json.obj [("pagination", Json.obj [("page", Json.num 3)])]) = some false ∧
    pagDecision (Json.obj [("pagination", Json.obj [])]) = some false ∧
    pagDecision (Json.obj [("pagination", Json.obj [("pages", Json.num 2)])]) = some true :=
  ⟨pagination_missing_subfields.1 _ _ 3 rfl rfl rfl,
   pagination_missing_subfields.2.1 _ _ rfl rfl rfl,
   pagination_missing_subfields.2.2.1 _ _ 2 rfl rfl rfl (by decide)⟩

/-- Counterexample to claim C3 as stated: the parsed body 5 has no data
    list and is not a list, the page counter is 1 and the accumulated
    record list is empty, yet fetch_nba_data does not append the body and
    return it: the membership test the source runs on the body raises an
    uncaught TypeError, because an int is not iterable, so the call crashes
    instead of returning a one-record dataset. -/
theorem bare_body_crash_counterexample :
    fetch_nba_data (fun _ => some (Json.num 5)) 1 = ([1], FetchOut.crash) := by
  decide

/-- Claim C3 amended: for every parsed response body that is a dict without
    a data entry holding a list, the body is appended whole as a single
    record exactly when the page counter is 1 and the accumulated record
    list is empty, and contributes no record otherwise.  The restriction to
    dict bodies is forced: on non-iterable bodies (numbers, booleans, null)
    the membership test raises an uncaught TypeError. -/
theorem bare_object_fallback_objects :
    ∀ (page : Nat) (acc : List Json) (fields : List (String × Json)),
      (∀ xs, List.lookup "data" fields ≠ some (Json.arr xs)) →
      accumulateBody page acc (Json.obj fields) =
        some (if page = 1 ∧ acc = [] then acc ++ [Json.obj fields] else acc) := by
  intro page acc fields h
  simp only [accumulateBody, pyContains, pyIndexStr]
  cases hv : List.lookup "data" fields with
  | none => simp [accumFallback]
  | some v =>
    cases v with
    | arr xs => exact absurd hv (h xs)
    | null => simp [accumFallback]
    | bool b => simp [accumFallback]
    | num n => simp [accumFallback]
    | str s => simp [accumFallback]
    | obj gs => simp [accumFallback]

/-- Witness for the amended claim C3: a bare dict body is appended on the
    first page with an empty accumulator and ignored on a later page. -/
theorem bare_object_fallback_objects_witness :
    accumulateBody 1 [] (Json.obj [("x", Json.num 1)]) =
      some [Json.obj [("x", Json.num 1)]] ∧
    accumulateBody 2 [Json.num 9] (Json.obj [("x", Json.num 1)]) = some [Json.num 9] := by
  have hne : ∀ xs, List.lookup "data" [("x", Json.num 1)] ≠ some (Json.arr xs) := by
    intro xs h
    rw [show List.lookup "data" [("x", Json.num 1)] = none from rfl] at h
    exact Option.noConfusion h
  constructor
  · rw [bare_object_fallback_objects 1 [] [("x", Json.num 1)] hne]
    decide
  · rw [bare_object_fallback_objects 2 [Json.num 9] [("x", Json.num 1)] hne]
    decide

/-- Claim C4: standardize_keys_to_lowercase is a total function on the
    nested mapping, sequence and scalar structures of the Json type, and it
    is idempotent: applying it twice yields the same value as applying it
    once. -/
theorem standardize_total_idempotent :
    ∀ j : Json,
      standardize_keys_to_lowercase (standardize_keys_to_lowercase j) =
        standardize_keys_to_lowercase j :=
  std_idem

/-- Claim C7: on a dict input the normalizer rebuilds the dict with every
    key lowercased, and when two keys collapse to the same lowercased key
    the value of the last-processed key in insertion order wins: looking up
    any key in the result finds the normalized value of the last entry
    whose lowercased key matches, every key of the result is fixed by
    lowercasing, and the concrete input with keys A then a and values 1
    then 2 yields exactly the single entry a mapped to 2. -/
theorem standardize_key_collision :
    (∀ fs : List (String × Json),
      standardize_keys_to_lowercase (Json.obj fs) = Json.obj (stdFields fs [])) ∧
    (∀ (fs : List (String × Json)) (k : String),
      List.lookup k (stdFields fs []) =
        Option.map standardize_keys_to_lowercase (lastLoweredValue fs k)) ∧
    (∀ fs : List (String × Json),
      (stdFields fs []).all (fun p => lowerString p.1 == p.1) = true) ∧
    standardize_keys_to_lowercase (Json.obj [("A", Json.num 1), ("a", Json.num 2)]) =
      Json.obj [("a", Json.num 2)] := by
  refine ⟨fun fs => rfl, ?_, ?_, by decide⟩
  · intro fs k
    rw [stdFields_lookup fs [] k]
    cases lastLoweredValue fs k <;> rfl
  · intro fs
    have hnorm : NormalizedFields (stdFields fs []) :=
      stdFields_normalized fs [] (fun p _ => std_idem p.2) ⟨by simp, List.Pairwise.nil⟩
    rw [List.all_eq_true]
    intro p hp
    exact beq_iff_eq.mpr ((hnorm.1 p hp).1)

/-- Claim C8: upload_to_gcs serializes a list as one dumped line per
    element joined by single newline characters: splitting the staged
    characters at newlines recovers exactly the per-element dumps (so the
    separators are single newlines and nothing trails the last line), the
    staged characters never end in a newline, and a non-list input is
    staged as its sole dumped form. -/
theorem upload_ndjson :
    (∀ xs : List Json, upload_to_gcs (Json.arr xs) = joinLines (xs.map dumpChars)) ∧
    (∀ xs : List Json, xs ≠ [] →
      splitLines (upload_to_gcs (Json.arr xs)) = xs.map dumpChars) ∧
    (∀ xs : List Json, (upload_to_gcs (Json.arr xs)).getLast? ≠ some '\n') ∧
    (∀ j : Json, (∀ xs, j ≠ Json.arr xs) → upload_to_gcs j = dumpChars j) := by
  refine ⟨fun xs => rfl, ?_, ?_, ?_⟩
  · intro xs hne
    rw [upload_to_gcs]
    refine splitLines_joinLines (xs.map dumpChars) ?_ (by simpa using hne)
    intro l hl
    obtain ⟨x, _, hx⟩ := List.mem_map.mp hl
    rw [← hx]
    exact dumpChars_no_nl x
  · intro xs
    rw [upload_to_gcs]
    refine joinLines_getLast_ne_nl (xs.map dumpChars) ?_ ?_
    · intro l hl
      obtain ⟨x, _, hx⟩ := List.mem_map.mp hl
      rw [← hx]
      exact dumpChars_no_nl x
    · intro l hl
      obtain ⟨x, _, hx⟩ := List.mem_map.mp hl
      rw [← hx]
      exact dumpChars_ne_nil x
  · intro j h
    cases j with
    | arr xs => exact absurd rfl (h xs)
    | null => rfl
    | bool b => rfl
    | num n => rfl
    | str s => rfl
    | obj fs => rfl

/-- Witness for claim C8: a two-record dataset splits back into its two
    dumped lines, and a bare number is staged as its sole dump. -/
theorem upload_ndjson_witness :
    splitLines (upload_to_gcs (Json.arr [Json.num 1, Json.num 2])) = [['1'], ['2']] ∧
    upload_to_gcs (Json.num 7) = ['7'] := by
  constructor
  · rw [upload_ndjson.2.1 [Json.num 1, Json.num 2] (by decide)]
    decide
  · rw [upload_ndjson.2.2.2 (Json.num 7) (fun xs h => Json.noConfusion h)]
    decide

/-- Counterexample to claim C5 as stated: two completed load jobs that
    wrote different row counts, 2 and 0, make load_json_to_bigquery return
    the same value, the constant True, so the returned value cannot be the
    number of rows written: no reading of the return value recovers the row
    count. -/
theorem load_rowcount_counterexample :
    load_json_to_bigquery (Except.ok ⟨2⟩) = load_json_to_bigquery (Except.ok ⟨0⟩) ∧
    load_json_to_bigquery (Except.ok ⟨2⟩) = true ∧
    ¬ ∃ f : Bool → Nat, ∀ r : LoadJobDone,
        f (load_json_to_bigquery (Except.ok r)) = r.output_rows := by
  refine ⟨rfl, rfl, ?_⟩
  rintro ⟨f, hf⟩
  have h2 := hf ⟨2⟩
  have h0 := hf ⟨0⟩
  rw [load_json_to_bigquery] at h2 h0
  rw [h2] at h0
  exact Nat.noConfusion h0

/-- Claim C5 amended: load_json_to_bigquery returns True when the load job
    reaches completion and False when the job raises, for job failures of
    any kind; the row count of a completed job is only logged, never
    returned. -/
theorem load_success_flag :
    (∀ r : LoadJobDone, load_json_to_bigquery (Except.ok r) = true) ∧
    (∀ e : String, load_json_to_bigquery (Except.error e) = false) :=
  ⟨fun _ => rfl, fun _ => rfl⟩

/-- Claim C9: the caller's query-parameter dict is never modified by
    fetch_nba_data: after any sequence of page assignments the caller's
    dict still holds exactly its original entries, because the page entry
    is written into the copied local dict, where it lands as the original
    entries plus or overriding a page entry. -/
theorem fetch_params_caller_unchanged :
    (∀ (d : List (String × Json)) (pages : List Nat),
      (pages.foldl setPageParam (initParams (some d))).callerDict = some d) ∧
    (∀ (d : List (String × Json)) (p : Nat),
      (setPageParam (initParams (some d)) p).localDict = dinsert d "page" (Json.num p)) :=
  ⟨fun d pages => foldl_setPageParam_caller pages (initParams (some d)),
   fun _ _ => rfl⟩
